import Mathlib

set_option linter.unusedVariables false

/-!
Verification development for the PathScanner repository (src/PathScanner.py).

The Python module is shallowly embedded over an explicit filesystem model:
a filesystem is a finite tree of nodes (regular files with an optional
readable size, directories with a listing-permission flag and named
children, `special` nodes that stat as neither file nor directory such as
device nodes or stat-able broken symlinks, and `inaccessible` nodes whose
stat raises a non-ignored error such as EACCES).  Paths are modelled as
lists of components, which is also how Python's `pathlib.PurePath`
compares paths: `PurePath.__lt__` compares the tuple of parts
lexicographically (`_cparts` / `_parts_normcase`), not the flat path
string.  Python's per-entry `Path.resolve()` is modelled as a total
function carried by the filesystem (the model has no symlink loops, where
`resolve` could raise).
-/

/-- Paths as Python `pathlib` sees them: the sequence of components. -/
abbrev PyPath := List String

/-- Code-point comparison of characters (Python compares strings by code
point). -/
def charLtB (a b : Char) : Bool := decide (a.toNat < b.toNat)

/-- Generic boolean lexicographic strict order on lists given a strict
order on elements: Python's sequence `<` (a proper initial segment is
smaller; otherwise the first differing position decides). -/
def lexB (lt : α → α → Bool) : List α → List α → Bool
  | [], [] => false
  | [], _ :: _ => true
  | _ :: _, [] => false
  | a :: as, b :: bs => if lt a b then true else if lt b a then false else lexB lt as bs

/-- Python string `<`: lexicographic by code point. -/
def strLtB (a b : String) : Bool := lexB charLtB a.data b.data

/-- Strict comparison of paths the way Python compares `PurePath` values:
lexicographic on the list of parts, each part compared as a string
(`_cparts` / `_parts_normcase` comparison, POSIX flavour). -/
def pathLtB (a b : PyPath) : Bool := lexB strLtB a b

/-- Non-strict path comparison (total order used by sorting). -/
def pathLeB (a b : PyPath) : Bool := !(pathLtB b a)

/-- The non-strict path order as a relation. -/
def pathLe (a b : PyPath) : Prop := pathLeB a b = true

instance : DecidableRel pathLe := fun _ _ => instDecidableEqBool _ _

/-- Model of Python `sorted` on a list of `Path` values: with a linear
order, under which only identical elements ever compare equal, the
sorted permutation of a list is unique, so any correct sort — here
insertion sort — returns exactly what Python's stable `sorted`
returns. -/
def sortP (l : List PyPath) : List PyPath := l.insertionSort pathLe


/-- Boolean "sorted ascending in Path order" check (consecutive pairs). -/
def isSortedP : List PyPath → Bool
  | [] => true
  | [_] => true
  | x :: y :: t => pathLeB x y && isSortedP (y :: t)

/-- The flat path string of a path, as `str(path)` would render it. -/
def joinPath : PyPath → String
  | [] => ""
  | [a] => a
  | a :: rest => a ++ "/" ++ joinPath rest

/-- Boolean "sorted ascending by flat path string" check; this is what
the specification asserts of scan results. -/
def isSortedStr : List PyPath → Bool
  | [] => true
  | [_] => true
  | x :: y :: t => !(strLtB (joinPath y) (joinPath x)) && isSortedStr (y :: t)

/-- The hidden-entry test `name.startswith('.')`. -/
def startsWithDot (s : String) : Bool :=
  match s.data with
  | c :: _ => c = '.'
  | [] => false

/-- ASCII lower-casing of one character (Python `str.lower` restricted to
ASCII, which covers extension matching). -/
def lowerChar (c : Char) : Char :=
  if 65 ≤ c.toNat && c.toNat ≤ 90 then Char.ofNat (c.toNat + 32) else c

/-- Model of `str.lower()` on a string. -/
def lowerStr (s : String) : String := String.mk (s.data.map lowerChar)

/-- One filesystem object.  `file` carries the byte size `stat` reports
(`none` when reading the size fails).  `dir` carries a flag saying the
listing itself is permission-denied plus the named children.  `special`
is an object that exists and stats as neither regular file nor directory
(device node, stat-able broken symlink).  `inaccessible` is an object
whose `stat` raises a non-ignored error (e.g. EACCES), so `is_file()` /
`exists()` raise on it. -/
inductive FsNode where
  | file (size : Option Nat)
  | dir (denied : Bool) (children : List (String × FsNode))
  | special
  | inaccessible
deriving Repr

/-- A filesystem: the root node plus the behaviour of `Path.resolve()`,
modelled as a total function on paths (no symlink loops in the model). -/
structure Fs where
  root : FsNode
  resolve : PyPath → PyPath

/-- Find the first child with the given name (directory entries have
unique names on a real filesystem). -/
def findChild (name : String) : List (String × FsNode) → Option FsNode
  | [] => none
  | (n, c) :: rest => if n = name then some c else findChild name rest

/-- Follow a path down the tree. -/
def lookup : FsNode → PyPath → Option FsNode
  | n, [] => some n
  | FsNode.dir _ cs, a :: as =>
      match findChild a cs with
      | some c => lookup c as
      | none => none
  | _, _ :: _ => none

/-- Root-level errors raised by the scan operations,
`FileNotFoundError` / `NotADirectoryError` / `PermissionError`. -/
inductive ScanErr where
  | notFound
  | notADirectory
  | permissionDenied
deriving DecidableEq, Repr

/-- The body of the `for item in iterator` loop of `scan_directory`
(src/PathScanner.py lines 296-310), run over the enumeration order of the
children: hidden-name filtering on the raw name, optional per-entry
resolution, then classification by `item.is_file()` alone — regular files
go to the first list, every other stat-able entry (directories and
`special` nodes alike) is appended to the `items[False]` list, and an
entry whose stat raises a non-ignored error is skipped with a warning.
Returns the file paths and the (path, node) pairs of the `False` bucket
(the node is kept so the recursive walk can descend). -/
def collectEntries (resolve : PyPath → PyPath) (resolve_paths include_hidden : Bool)
    (p : PyPath) : List (String × FsNode) → List PyPath × List (PyPath × FsNode)
  | [] => ([], [])
  | (nm, c) :: rest =>
      let acc := collectEntries resolve resolve_paths include_hidden p rest
      if !include_hidden && startsWithDot nm then acc
      else
        let item := if resolve_paths then resolve (p ++ [nm]) else p ++ [nm]
        match c with
        | FsNode.file _ => (item :: acc.1, acc.2)
        | FsNode.dir b cs2 => (acc.1, (item, FsNode.dir b cs2) :: acc.2)
        | FsNode.special => (acc.1, (item, FsNode.special) :: acc.2)
        | FsNode.inaccessible => acc

/-- Modelled from the spec: the external `tqdm` progress capability is
not part of this repository; the specification requires that wrapping an
iterable for progress display "returns an equivalent iterable" and is
purely cosmetic, so it is modelled as the identity on the enumeration. -/
def progressWrap (l : List α) : List α := l

/-- Model of the module-level `scan_directory` (src/PathScanner.py lines
253-319): validate the root (`exists()` raises `PermissionError` on an
`inaccessible` node, a missing path raises `FileNotFoundError`, a
non-directory raises `NotADirectoryError`, a directory whose listing is
denied raises `PermissionError` re-raised from the `iterdir` loop), then
run the per-entry loop and return both buckets sorted. -/
def scan_directory (fs : Fs) (directory : PyPath)
    (show_progress resolve_paths include_hidden : Bool) :
    Except ScanErr (List PyPath × List PyPath) :=
  match lookup fs.root directory with
  | none => Except.error ScanErr.notFound
  | some FsNode.inaccessible => Except.error ScanErr.permissionDenied
  | some (FsNode.file _) => Except.error ScanErr.notADirectory
  | some FsNode.special => Except.error ScanErr.notADirectory
  | some (FsNode.dir true _) => Except.error ScanErr.permissionDenied
  | some (FsNode.dir false cs) =>
      let iterator := if show_progress then progressWrap cs else cs
      let collected := collectEntries fs.resolve resolve_paths include_hidden directory iterator
      Except.ok (sortP collected.1, sortP (collected.2.map Prod.fst))

/-- Model of `scan_directory_simple`: `scan_directory` with the progress
bar off, no resolution, hidden entries included (the defaults). -/
def scan_directory_simple (fs : Fs) (directory : PyPath) :
    Except ScanErr (List PyPath × List PyPath) :=
  scan_directory fs directory false false true

/-- The `current_depth > max_depth` guard of `_scan_recursive`
(src/PathScanner.py line 362): only applies when a depth bound is set. -/
def depthExceeded (max_depth : Option Nat) (current_depth : Nat) : Bool :=
  match max_depth with
  | some m => decide (m < current_depth)
  | none => false

mutual

/-- Model of the inner closure `_scan_recursive(current_path, current_depth)`
(src/PathScanner.py lines 361-375): stop once the current depth exceeds
the bound; otherwise run `scan_directory_simple` on the current node
(whose whole body, including validation, sits under
`except (PermissionError, OSError)`: a denied listing or a non-directory
node — `special` entries do land in the folders bucket — just abandons
the branch with a warning), extend the accumulators with the sorted
per-directory results, and descend one level deeper.  The source
descends into exactly the sorted folder-bucket paths; the model descends
into every child in enumeration order instead, which collects the same
multiset of entries — a child outside the folder bucket (a regular file,
or an `inaccessible` entry) contributes nothing when descended into,
just as a `special` folder-bucket entry contributes nothing in the
source because its inner scan raises `NotADirectoryError` into the
`except` clause — and the traversal order is immaterial because
`scan_directory_recursive` sorts the accumulated lists at the end
(directory entries have unique names, so the same nodes are visited). -/
def walk (fs : Fs) (max_depth : Option Nat) :
    FsNode → PyPath → Nat → List PyPath × List PyPath
  | n, p, d =>
    if depthExceeded max_depth d then ([], [])
    else
      match n with
      | FsNode.dir false cs =>
          let collected := collectEntries fs.resolve false true p cs
          let sub := walkChildren fs max_depth cs p (d + 1)
          (sortP collected.1 ++ sub.1, sortP (collected.2.map Prod.fst) ++ sub.2)
      | _ => ([], [])
termination_by structural n => n

/-- The `for folder in folders: _scan_recursive(folder, current_depth + 1)`
loop, accumulating each branch's collections. -/
def walkChildren (fs : Fs) (max_depth : Option Nat) :
    List (String × FsNode) → PyPath → Nat → List PyPath × List PyPath
  | [], _, _ => ([], [])
  | (nm, c) :: rest, p, d =>
      let one := walk fs max_depth c (p ++ [nm]) d
      let more := walkChildren fs max_depth rest p d
      (one.1 ++ more.1, one.2 ++ more.2)
termination_by structural l => l

end

/-- Model of `scan_directory_recursive` (src/PathScanner.py lines
335-379): root validation (`exists` / `is_dir`) happens outside any
`try`, so a missing root, a non-directory root, or an `inaccessible`
root (whose stat raises) propagate; a root directory whose *listing* is
denied passes validation and the error is then swallowed inside the
walk.  The `show_progress` argument is accepted but never forwarded:
every per-directory step is `scan_directory_simple`.  The accumulated
lists are sorted once at the end. -/
def scan_directory_recursive (fs : Fs) (directory : PyPath)
    (max_depth : Option Nat) (show_progress : Bool) :
    Except ScanErr (List PyPath × List PyPath) :=
  match lookup fs.root directory with
  | none => Except.error ScanErr.notFound
  | some FsNode.inaccessible => Except.error ScanErr.permissionDenied
  | some (FsNode.file _) => Except.error ScanErr.notADirectory
  | some FsNode.special => Except.error ScanErr.notADirectory
  | some (FsNode.dir denied cs) =>
      let collected := walk fs max_depth (FsNode.dir denied cs) directory 0
      Except.ok (sortP collected.1, sortP collected.2)

/-- The `stat().st_size` of a path: only regular files with a readable size
report one (`none` models a per-file stat failure). -/
def statSize (fs : Fs) (p : PyPath) : Option Nat :=
  match lookup fs.root p with
  | some (FsNode.file sz) => sz
  | _ => none

/-- Model of `validate_directory` (src/PathScanner.py lines 425-446). -/
def validate_directory (fs : Fs) (directory : PyPath) : Except ScanErr PyPath :=
  match lookup fs.root directory with
  | none => Except.error ScanErr.notFound
  | some FsNode.inaccessible => Except.error ScanErr.permissionDenied
  | some (FsNode.file _) => Except.error ScanErr.notADirectory
  | some FsNode.special => Except.error ScanErr.notADirectory
  | some (FsNode.dir _ _) => Except.ok directory

/-- Model of `get_directory_size` (src/PathScanner.py lines 449-474):
validate, recursively scan unbounded, sum readable file sizes, skipping
files whose stat fails; a scan failure inside the `try` is logged and
yields the running total (0). -/
def get_directory_size (fs : Fs) (directory : PyPath) : Except ScanErr Nat :=
  match validate_directory fs directory with
  | Except.error e => Except.error e
  | Except.ok path =>
      match scan_directory_recursive fs path none false with
      | Except.error _ => Except.ok 0
      | Except.ok (files, _) =>
          Except.ok (files.foldl (fun acc f => acc + (statSize fs f).getD 0) 0)

/-- Index of the last '.' in a name, if any (Python `str.rfind`). -/
def lastDot : List Char → Option Nat
  | [] => none
  | c :: cs =>
      match lastDot cs with
      | some i => some (i + 1)
      | none => if c = '.' then some 0 else none

/-- Python `PurePath.suffix` of one name: the substring from the last
dot, provided that dot is neither the first nor the last character. -/
def suffixOfName (name : String) : String :=
  let cs := name.toList
  match lastDot cs with
  | some i => if 0 < i ∧ i < cs.length - 1 then String.mk (cs.drop i) else ""
  | none => ""

/-- Python `Path.suffix`: the suffix of the final component. -/
def pySuffix (p : PyPath) : String :=
  match p.getLast? with
  | some name => suffixOfName name
  | none => ""

/-- Extension normalisation of `filter_by_extension`: ensure a leading
dot, then lower-case. -/
def normalizeExt (ext : String) : String :=
  lowerStr (if startsWithDot ext then ext else "." ++ ext)

/-- Model of `filter_by_extension` (src/PathScanner.py lines 477-498). -/
def filter_by_extension (files : List PyPath) (extensions : List String) : List PyPath :=
  if extensions.isEmpty then files
  else
    let normalized_exts := extensions.map normalizeExt
    files.filter fun f => normalized_exts.any fun e => e = lowerStr (pySuffix f)

/-- Model of the closure added by `PathScanner.add_size_filter`
(src/PathScanner.py lines 171-183).  Note the Python truthiness tests
`if min_size and size < min_size` / `if max_size and size > max_size`:
a bound that is `None` *or zero* is never applied.  Entries whose stat
raises are dropped. -/
def size_filter (min_size max_size : Option Nat) (fs : Fs) : List PyPath → List PyPath
  | [] => []
  | f :: rest =>
      let tail := size_filter min_size max_size fs rest
      match statSize fs f with
      | none => tail
      | some size =>
          if (match min_size with
              | some m => m != 0 && decide (size < m)
              | none => false) then tail
          else if (match max_size with
              | some m => m != 0 && decide (m < size)
              | none => false) then tail
          else f :: tail

/-- Cumulative statistics dictionary of the wrapper. -/
structure ScanStats where
  scans : Nat
  files_found : Nat
  folders_found : Nat
  cache_hits : Nat
deriving DecidableEq, Repr

/-- Cache key: `(str(Path(directory).resolve()), resolve_paths, include_hidden)`. -/
abbrev CacheKey := PyPath × Bool × Bool

/-- A `(files, folders)` pair. -/
abbrev ScanResult := List PyPath × List PyPath

/-- A registered filter: Python closures close over the filesystem
implicitly, so the model passes it explicitly. -/
abbrev FilterFn := Fs → List PyPath → List PyPath

/-- First-match association lookup (`key in dict` / `dict[key]`). -/
def assocFind (key : CacheKey) : List (CacheKey × ScanResult) → Option ScanResult
  | [] => none
  | (k, v) :: rest => if k = key then some v else assocFind key rest

/-- Model of `dict[key] = val`: overwrite in place or append. -/
def assocInsert (key : CacheKey) (val : ScanResult) :
    List (CacheKey × ScanResult) → List (CacheKey × ScanResult)
  | [] => [(key, val)]
  | (k, v) :: rest =>
      if k = key then (k, val) :: rest else (k, v) :: assocInsert key val rest

/-- The stateful wrapper object (src/PathScanner.py lines 28-251). -/
structure PathScanner where
  show_progress : Bool
  resolve_paths : Bool
  include_hidden : Bool
  enable_cache : Bool
  cache : Option (List (CacheKey × ScanResult))
  stats : ScanStats
  scan_history : List PyPath
  filters : List FilterFn

/-- Model of `PathScanner.__init__`. -/
def PathScanner.make (show_progress resolve_paths include_hidden enable_cache : Bool) :
    PathScanner :=
  { show_progress, resolve_paths, include_hidden, enable_cache,
    cache := if enable_cache then some [] else none,
    stats := ⟨0, 0, 0, 0⟩, scan_history := [], filters := [] }

/-- Model of `for filter_func in self._filters: files = filter_func(files)`. -/
def applyFilters (fs : Fs) (filters : List FilterFn) (files : List PyPath) : List PyPath :=
  filters.foldl (fun fl f => f fs fl) files

/-- Model of `PathScanner.scan_directory` (src/PathScanner.py lines
63-119): resolve effective options, look the key up in the cache when
`enable_cache and use_cache and self._cache is not None`, and on a hit
return the cached pair bumping only the hit counter; otherwise scan,
apply the filter chain to the files, update stats and history, and store
the filtered result under the key whenever caching is enabled. -/
def PathScanner.scanDirectory (s : PathScanner) (fs : Fs) (directory : PyPath)
    (show_progress resolve_paths include_hidden : Option Bool) (use_cache : Bool) :
    Except ScanErr (ScanResult × PathScanner) :=
  let eff_show_progress := show_progress.getD s.show_progress
  let eff_resolve_paths := resolve_paths.getD s.resolve_paths
  let eff_include_hidden := include_hidden.getD s.include_hidden
  let cache_key : CacheKey := (fs.resolve directory, eff_resolve_paths, eff_include_hidden)
  let hit : Option ScanResult :=
    if s.enable_cache && use_cache then
      match s.cache with
      | some c => assocFind cache_key c
      | none => none
    else none
  match hit with
  | some v =>
      Except.ok (v, { s with stats := { s.stats with cache_hits := s.stats.cache_hits + 1 } })
  | none =>
      match scan_directory fs directory eff_show_progress eff_resolve_paths eff_include_hidden with
      | Except.error e => Except.error e
      | Except.ok (files0, folders) =>
          let files := applyFilters fs s.filters files0
          let stats' := { s.stats with
            scans := s.stats.scans + 1,
            files_found := s.stats.files_found + files.length,
            folders_found := s.stats.folders_found + folders.length }
          let cache' :=
            if s.enable_cache then
              match s.cache with
              | some c => some (assocInsert cache_key (files, folders) c)
              | none => none
            else s.cache
          Except.ok ((files, folders),
            { s with stats := stats',
                     scan_history := s.scan_history ++ [directory],
                     cache := cache' })

/-- Model of `PathScanner.scan_recursive` (src/PathScanner.py lines
121-142): no cache participation; filters applied to files only; stats
and history updated as in `scanDirectory`. -/
def PathScanner.scanRecursive (s : PathScanner) (fs : Fs) (directory : PyPath)
    (max_depth : Option Nat) (show_progress : Option Bool) :
    Except ScanErr (ScanResult × PathScanner) :=
  let eff_show_progress := show_progress.getD s.show_progress
  match scan_directory_recursive fs directory max_depth eff_show_progress with
  | Except.error e => Except.error e
  | Except.ok (files0, folders) =>
      let files := applyFilters fs s.filters files0
      let stats' := { s.stats with
        scans := s.stats.scans + 1,
        files_found := s.stats.files_found + files.length,
        folders_found := s.stats.folders_found + folders.length }
      Except.ok ((files, folders),
        { s with stats := stats', scan_history := s.scan_history ++ [directory] })

/-- Model of `PathScanner.add_extension_filter`. -/
def PathScanner.add_extension_filter (s : PathScanner) (extensions : List String) :
    PathScanner :=
  { s with filters := s.filters ++ [fun _ files => filter_by_extension files extensions] }

/-- Model of `PathScanner.add_size_filter`. -/
def PathScanner.add_size_filter (s : PathScanner) (min_size max_size : Option Nat) :
    PathScanner :=
  { s with filters := s.filters ++ [size_filter min_size max_size] }

/-- Files component of a module-level single-pass scan, `[]` on error. -/
def scanFiles (fs : Fs) (directory : PyPath) (sp rp ih : Bool) : List PyPath :=
  match scan_directory fs directory sp rp ih with
  | Except.ok r => r.1
  | Except.error _ => []

/-- Folders component of a module-level single-pass scan, `[]` on error. -/
def scanFolders (fs : Fs) (directory : PyPath) (sp rp ih : Bool) : List PyPath :=
  match scan_directory fs directory sp rp ih with
  | Except.ok r => r.2
  | Except.error _ => []

/-- Files component of a recursive scan, `[]` on error. -/
def recScanFiles (fs : Fs) (directory : PyPath) (maxd : Option Nat) (sp : Bool) :
    List PyPath :=
  match scan_directory_recursive fs directory maxd sp with
  | Except.ok r => r.1
  | Except.error _ => []

/-- Folders component of a recursive scan, `[]` on error. -/
def recScanFolders (fs : Fs) (directory : PyPath) (maxd : Option Nat) (sp : Bool) :
    List PyPath :=
  match scan_directory_recursive fs directory maxd sp with
  | Except.ok r => r.2
  | Except.error _ => []

/-- Returns `true` on `Except.ok`. -/
def exceptOk : Except ScanErr α → Bool
  | Except.ok _ => true
  | Except.error _ => false

/-- The `(files, folders)` pair a wrapper scan returns, dropping the
updated wrapper state; `none` when the scan raised. -/
def wrapResult : Except ScanErr (ScanResult × PathScanner) → Option ScanResult
  | Except.ok (r, _) => some r
  | Except.error _ => none

/-- Whether `scan_directory` places a stat-able node in the
`items[False]` (folders) bucket: everything whose `is_file()` is
`False`, i.e. directories and `special` nodes alike. -/
def isFolderBucket : FsNode → Bool
  | FsNode.dir _ _ => true
  | FsNode.special => true
  | _ => false

/-- The matching predicate stated by the specification for
`filter_by_extension`: the file's suffix, case-insensitively, equals one
of the supplied extensions after dot-normalisation. -/
def extMatchesSpec (extensions : List String) (f : PyPath) : Bool :=
  extensions.any fun ext => lowerStr (pySuffix f) = normalizeExt ext

/-- The keep-predicate the specification asserts for the size filter: a
supplied bound always applies. -/
def specSizeKeep (min_size max_size : Option Nat) (size : Nat) : Bool :=
  (match min_size with
   | some m => decide (m ≤ size)
   | none => true) &&
  (match max_size with
   | some m => decide (size ≤ m)
   | none => true)

/-- The keep-predicate the code implements: a supplied bound is applied
only when it is nonzero, because of the Python truthiness tests
`if min_size and ...` / `if max_size and ...`. -/
def codeSizeKeep (min_size max_size : Option Nat) (size : Nat) : Bool :=
  (match min_size with
   | some m => m == 0 || decide (m ≤ size)
   | none => true) &&
  (match max_size with
   | some m => m == 0 || decide (size ≤ m)
   | none => true)

/-- Root-level outcome of the three scan operations as a function of the
node the root path resolves to: `NotFound` and `NotADirectory` propagate
everywhere, a root whose *stat* raises (`inaccessible`) propagates
`PermissionDenied` everywhere, but a root directory whose *listing* is
denied raises only from the single-pass scan — the recursive scan and
`get_directory_size` swallow it inside the walk; an accessible root
directory never raises in any of the three, whatever its entries are. -/
def rootOutcome (fs : Fs) (directory : PyPath) (sp rp ih : Bool)
    (maxd : Option Nat) (sp2 : Bool) : Option FsNode → Prop
  | none =>
      scan_directory fs directory sp rp ih = Except.error ScanErr.notFound ∧
      scan_directory_recursive fs directory maxd sp2 = Except.error ScanErr.notFound ∧
      get_directory_size fs directory = Except.error ScanErr.notFound
  | some (FsNode.file _) =>
      scan_directory fs directory sp rp ih = Except.error ScanErr.notADirectory ∧
      scan_directory_recursive fs directory maxd sp2 = Except.error ScanErr.notADirectory ∧
      get_directory_size fs directory = Except.error ScanErr.notADirectory
  | some FsNode.special =>
      scan_directory fs directory sp rp ih = Except.error ScanErr.notADirectory ∧
      scan_directory_recursive fs directory maxd sp2 = Except.error ScanErr.notADirectory ∧
      get_directory_size fs directory = Except.error ScanErr.notADirectory
  | some FsNode.inaccessible =>
      scan_directory fs directory sp rp ih = Except.error ScanErr.permissionDenied ∧
      scan_directory_recursive fs directory maxd sp2 = Except.error ScanErr.permissionDenied ∧
      get_directory_size fs directory = Except.error ScanErr.permissionDenied
  | some (FsNode.dir true _) =>
      scan_directory fs directory sp rp ih = Except.error ScanErr.permissionDenied ∧
      scan_directory_recursive fs directory maxd sp2 = Except.ok ([], []) ∧
      get_directory_size fs directory = Except.ok 0
  | some (FsNode.dir false _) =>
      exceptOk (scan_directory fs directory sp rp ih) = true ∧
      exceptOk (scan_directory_recursive fs directory maxd sp2) = true ∧
      exceptOk (get_directory_size fs directory) = true

/-- A one-file filesystem used as a concrete instance. -/
def fsSingle : Fs :=
  { root := FsNode.dir false [("x", FsNode.file (some 3))], resolve := id }

/-- A filesystem with different contents but the same `resolve`
behaviour as `fsSingle`: distinguishes cache hits from rescans. -/
def fsEmptyDir : Fs :=
  { root := FsNode.dir false [], resolve := id }

/-- A two-level filesystem: one file and one subfolder holding a file. -/
def fsDepth : Fs :=
  { root := FsNode.dir false
      [("f.txt", FsNode.file (some 1)),
       ("sub", FsNode.dir false [("b.txt", FsNode.file (some 2))])],
    resolve := id }

/-- A filesystem whose recursive file list is sorted in Path (per-part)
order but not in flat-string order: `"r/a.c/d" < "r/a/b"` as strings
(`'.' < '/'`), while `("r","a","b") < ("r","a.c","d")` part-wise. -/
def fsStrOrder : Fs :=
  { root := FsNode.dir false
      [("r", FsNode.dir false
        [("a", FsNode.dir false [("b", FsNode.file (some 1))]),
         ("a.c", FsNode.dir false [("d", FsNode.file (some 1))])])],
    resolve := id }

/-- A root directory whose listing is permission-denied. -/
def fsDenied : Fs :=
  { root := FsNode.dir true [], resolve := id }

/-- Files of sizes 50, 150, 300. -/
def fsSizes : Fs :=
  { root := FsNode.dir false
      [("a", FsNode.file (some 50)),
       ("b", FsNode.file (some 150)),
       ("c", FsNode.file (some 300))],
    resolve := id }

/-- A directory holding a device node (`special`) and an entry whose
stat raises (`inaccessible`). -/
def fsSpecial : Fs :=
  { root := FsNode.dir false
      [("dev", FsNode.special), ("gone", FsNode.inaccessible)],
    resolve := id }

theorem lexB_asymm (lt : α → α → Bool)
    (hasymm : ∀ a b, lt a b = true → lt b a = false) :
    ∀ {x y : List α}, lexB lt x y = true → lexB lt y x = false := by
  intro x
  induction x with
  | nil =>
      intro y h
      cases y with
      | nil => simp [lexB] at h
      | cons b bs => simp [lexB]
  | cons a as ih =>
      intro y h
      cases y with
      | nil => simp [lexB] at h
      | cons b bs =>
          simp only [lexB] at h ⊢
          cases hab : lt a b with
          | true => simp [hab, hasymm a b hab]
          | false =>
              cases hba : lt b a with
              | true => simp [hab, hba] at h
              | false =>
                  simp [hab, hba] at h
                  simp [hab, hba, ih h]

theorem lexB_eq_of_not (lt : α → α → Bool)
    (heq : ∀ a b, lt a b = false → lt b a = false → a = b) :
    ∀ {x y : List α}, lexB lt x y = false → lexB lt y x = false → x = y := by
  intro x
  induction x with
  | nil =>
      intro y h1 h2
      cases y with
      | nil => rfl
      | cons b bs => simp [lexB] at h1
  | cons a as ih =>
      intro y h1 h2
      cases y with
      | nil => simp [lexB] at h2
      | cons b bs =>
          simp only [lexB] at h1 h2
          cases hab : lt a b with
          | true => simp [hab] at h1
          | false =>
              cases hba : lt b a with
              | true => simp [hab, hba] at h2
              | false =>
                  simp [hab, hba] at h1 h2
                  rw [heq a b hab hba, ih h1 h2]

theorem lexB_trans (lt : α → α → Bool)
    (hasymm : ∀ a b, lt a b = true → lt b a = false)
    (htrans : ∀ a b c, lt a b = true → lt b c = true → lt a c = true)
    (heq : ∀ a b, lt a b = false → lt b a = false → a = b) :
    ∀ {x y z : List α}, lexB lt x y = true → lexB lt y z = true →
      lexB lt x z = true := by
  intro x
  induction x with
  | nil =>
      intro y z h1 h2
      cases y with
      | nil => simp [lexB] at h1
      | cons b bs =>
          cases z with
          | nil => simp [lexB] at h2
          | cons c cs => simp [lexB]
  | cons a as ih =>
      intro y z h1 h2
      cases y with
      | nil => simp [lexB] at h1
      | cons b bs =>
          cases z with
          | nil => simp [lexB] at h2
          | cons c cs =>
              simp only [lexB] at h1 h2 ⊢
              cases hab : lt a b with
              | true =>
                  cases hbc : lt b c with
                  | true => simp [htrans a b c hab hbc]
                  | false =>
                      cases hcb : lt c b with
                      | true => simp [hbc, hcb] at h2
                      | false =>
                          rw [heq b c hbc hcb] at hab
                          simp [hab]
              | false =>
                  cases hba : lt b a with
                  | true => simp [hab, hba] at h1
                  | false =>
                      have habeq := heq a b hab hba
                      subst habeq
                      simp [hab, hba] at h1
                      cases hac : lt a c with
                      | true => simp [hac]
                      | false =>
                          cases hca : lt c a with
                          | true => simp [hac, hca] at h2
                          | false =>
                              simp [hac, hca] at h2 ⊢
                              exact ih h1 h2

theorem charLtB_asymm (a b : Char) (h : charLtB a b = true) : charLtB b a = false := by
  simp [charLtB] at h ⊢
  omega

theorem charLtB_trans (a b c : Char) (h1 : charLtB a b = true)
    (h2 : charLtB b c = true) : charLtB a c = true := by
  simp [charLtB] at h1 h2 ⊢
  omega

theorem charLtB_eq_of_not (a b : Char) (h1 : charLtB a b = false)
    (h2 : charLtB b a = false) : a = b := by
  simp [charLtB] at h1 h2
  have h : a.toNat = b.toNat := by omega
  exact Char.eq_of_val_eq (UInt32.eq_of_toBitVec_eq (BitVec.eq_of_toNat_eq h))

theorem strLtB_asymm (a b : String) (h : strLtB a b = true) : strLtB b a = false :=
  lexB_asymm charLtB charLtB_asymm h

theorem strLtB_trans (a b c : String) (h1 : strLtB a b = true)
    (h2 : strLtB b c = true) : strLtB a c = true :=
  lexB_trans charLtB charLtB_asymm charLtB_trans charLtB_eq_of_not h1 h2

theorem strLtB_eq_of_not (a b : String) (h1 : strLtB a b = false)
    (h2 : strLtB b a = false) : a = b := by
  exact String.ext (lexB_eq_of_not charLtB charLtB_eq_of_not h1 h2)

theorem pathLtB_asymm (a b : PyPath) (h : pathLtB a b = true) : pathLtB b a = false :=
  lexB_asymm strLtB strLtB_asymm h

theorem pathLtB_trans (a b c : PyPath) (h1 : pathLtB a b = true)
    (h2 : pathLtB b c = true) : pathLtB a c = true :=
  lexB_trans strLtB strLtB_asymm strLtB_trans strLtB_eq_of_not h1 h2

theorem pathLtB_eq_of_not (a b : PyPath) (h1 : pathLtB a b = false)
    (h2 : pathLtB b a = false) : a = b :=
  lexB_eq_of_not strLtB strLtB_eq_of_not h1 h2

theorem pathLeB_total (a b : PyPath) : pathLeB a b = true ∨ pathLeB b a = true := by
  cases h : pathLtB b a with
  | false => left; simp [pathLeB, h]
  | true => right; simp [pathLeB, pathLtB_asymm b a h]

theorem pathLeB_trans {a b c : PyPath} (h1 : pathLeB a b = true)
    (h2 : pathLeB b c = true) : pathLeB a c = true := by
  simp only [pathLeB, Bool.not_eq_true'] at h1 h2 ⊢
  cases hca : pathLtB c a with
  | false => rfl
  | true =>
      cases hbc : pathLtB b c with
      | true => simp [pathLtB_trans b c a hbc hca] at h1
      | false =>
          have hbceq := pathLtB_eq_of_not b c hbc h2
          subst hbceq
          simp [hca] at h1

instance : IsTotal PyPath pathLe :=
  ⟨fun a b => pathLeB_total a b⟩

instance : IsTrans PyPath pathLe :=
  ⟨fun _ _ _ h1 h2 => pathLeB_trans h1 h2⟩

theorem sortP_sorted (l : List PyPath) : List.Sorted pathLe (sortP l) :=
  List.sorted_insertionSort pathLe l

theorem mem_sortP {x : PyPath} {l : List PyPath} : x ∈ sortP l ↔ x ∈ l :=
  (List.perm_insertionSort pathLe l).mem_iff

theorem isSortedP_of_sorted : ∀ {l : List PyPath}, List.Sorted pathLe l →
    isSortedP l = true := by
  intro l h
  induction l with
  | nil => rfl
  | cons x t ih =>
      cases t with
      | nil => rfl
      | cons y t2 =>
          rw [List.sorted_cons] at h
          have hxy : pathLe x y := h.1 y (by simp)
          have ht := ih h.2
          simp only [isSortedP]
          simp [pathLe] at hxy
          simp [hxy, ht]

theorem assocFind_insert (key : CacheKey) (val : ScanResult)
    (c : List (CacheKey × ScanResult)) :
    assocFind key (assocInsert key val c) = some val := by
  induction c with
  | nil => simp [assocInsert, assocFind]
  | cons kv rest ih =>
      obtain ⟨k, v⟩ := kv
      by_cases hk : k = key
      · simp [assocInsert, assocFind, hk]
      · simp [assocInsert, assocFind, hk, ih]

theorem depthExceeded_zero (maxd : Option Nat) : depthExceeded maxd 0 = false := by
  cases maxd with
  | none => rfl
  | some m => simp [depthExceeded]

theorem iterator_progress (sp : Bool) (cs : List (String × FsNode)) :
    (if sp then progressWrap cs else cs) = cs := by
  cases sp <;> rfl

/-- C9: the `show_progress` flag never affects the returned data: the
progress capability only wraps the iterator with an equivalent iterable
(`progressWrap`, a no-op), and `scan_directory_recursive` never even
forwards its flag into the per-directory scans, so two runs of either
scan differing only in the progress flag return identical results. -/
theorem progress_flag_no_effect (fs : Fs) (directory : PyPath)
    (rp ih sp1 sp2 : Bool) (maxd : Option Nat) :
    scan_directory fs directory sp1 rp ih = scan_directory fs directory sp2 rp ih ∧
    scan_directory_recursive fs directory maxd sp1 =
      scan_directory_recursive fs directory maxd sp2 := by
  constructor
  · cases sp1 <;> cases sp2 <;> rfl
  · rfl

/-- C6: `filter_by_extension` with zero extensions returns the input
unchanged; with one or more extensions it returns exactly the
subsequence of files whose suffix, case-insensitively, equals one of the
supplied extensions after each is normalized to start with a leading
dot; in particular `A.TXT` matches the filter `.txt`. -/
theorem extension_filter_spec (files : List PyPath) (extensions : List String)
    (hne : extensions ≠ []) :
    filter_by_extension files [] = files ∧
    filter_by_extension files extensions = files.filter (extMatchesSpec extensions) ∧
    filter_by_extension [["A.TXT"]] [".txt"] = [["A.TXT"]] := by
  refine ⟨rfl, ?_, by decide⟩
  unfold filter_by_extension
  rw [if_neg (by simpa using hne)]
  apply List.filter_congr
  intro f _
  simp only [extMatchesSpec, List.any_map, Function.comp]
  congr 1
  funext e
  exact decide_eq_decide.mpr eq_comm

/-- Witness for C6 at a concrete input. -/
theorem extension_filter_spec_witness :
    filter_by_extension [["a.md"], ["b.txt"]] [] = [["a.md"], ["b.txt"]] ∧
    filter_by_extension [["a.md"], ["b.txt"]] [".txt"] =
      List.filter (extMatchesSpec [".txt"]) [["a.md"], ["b.txt"]] ∧
    filter_by_extension [["A.TXT"]] [".txt"] = [["A.TXT"]] :=
  extension_filter_spec [["a.md"], ["b.txt"]] [".txt"] (by decide)

/-- C5 counterexample: the claim says a supplied upper bound always
applies, so with `max_size = 0` a file of size 50 must be dropped
(`specSizeKeep none (some 0) 50 = false`); but the Python truthiness
test `if max_size and size > max_size` ignores a zero bound, and the
filter keeps the file. -/
theorem size_filter_zero_bound_cex :
    size_filter none (some 0) fsSizes [["a"]] = [["a"]] ∧
    statSize fsSizes ["a"] = some 50 ∧
    specSizeKeep none (some 0) 50 = false := ⟨rfl, rfl, rfl⟩

/-- C5 amended: the size filter keeps an entry exactly when each
*nonzero* supplied bound is satisfied (a bound of `None` or `0` is never
applied, by Python truthiness), and drops entries whose size cannot be
read; with `min_size = 100` on files of sizes [50, 150, 300] only the
files of sizes 150 and 300 remain. -/
theorem size_filter_semantics_amended (min_size max_size : Option Nat) (fs : Fs)
    (files : List PyPath) :
    size_filter min_size max_size fs files =
      files.filter (fun f => (statSize fs f).elim false (codeSizeKeep min_size max_size)) ∧
    size_filter (some 100) none fsSizes [["a"], ["b"], ["c"]] = [["b"], ["c"]] := by
  refine ⟨?_, rfl⟩
  induction files with
  | nil => rfl
  | cons f rest ih =>
      rw [List.filter_cons]
      simp only [size_filter]
      rw [ih]
      cases hs : statSize fs f with
      | none => simp [hs]
      | some sz =>
          simp only [hs, Option.elim]
          cases min_size with
          | none =>
              cases max_size with
              | none => simp [codeSizeKeep]
              | some mx =>
                  by_cases hmx : mx = 0
                  · simp [codeSizeKeep, hmx]
                  · by_cases hle : sz ≤ mx
                    · simp [codeSizeKeep, hmx, hle, Nat.not_lt.mpr hle]
                    · simp [codeSizeKeep, hmx, hle, Nat.lt_of_not_le hle]
          | some mn =>
              cases max_size with
              | none =>
                  by_cases hmn : mn = 0
                  · simp [codeSizeKeep, hmn]
                  · by_cases hge : mn ≤ sz
                    · simp [codeSizeKeep, hmn, hge, Nat.not_lt.mpr hge]
                    · simp [codeSizeKeep, hmn, hge, Nat.lt_of_not_le hge]
              | some mx =>
                  by_cases hmn : mn = 0
                  · by_cases hmx : mx = 0
                    · simp [codeSizeKeep, hmn, hmx]
                    · by_cases hle : sz ≤ mx
                      · simp [codeSizeKeep, hmn, hmx, hle, Nat.not_lt.mpr hle]
                      · simp [codeSizeKeep, hmn, hmx, hle, Nat.lt_of_not_le hle]
                  · by_cases hge : mn ≤ sz
                    · by_cases hmx : mx = 0
                      · simp [codeSizeKeep, hmn, hmx, hge, Nat.not_lt.mpr hge]
                      · by_cases hle : sz ≤ mx
                        · simp [codeSizeKeep, hmn, hmx, hge, hle,
                            Nat.not_lt.mpr hge, Nat.not_lt.mpr hle]
                        · simp [codeSizeKeep, hmn, hmx, hge, hle,
                            Nat.not_lt.mpr hge, Nat.lt_of_not_le hle]
                    · simp [codeSizeKeep, hmn, hge, Nat.lt_of_not_le hge]

/-- C4 counterexample: a root directory whose listing is
permission-denied terminates the single-pass scan, but
`scan_directory_recursive` validates only `exists`/`is_dir` and then
catches the `PermissionError` inside `_scan_recursive`, returning empty
results instead of propagating (and `get_directory_size` likewise
returns 0), contrary to the claim that a root-level `PermissionDenied`
propagates in all three operations. -/
theorem root_error_propagation_cex :
    scan_directory fsDenied [] false false true = Except.error ScanErr.permissionDenied ∧
    scan_directory_recursive fsDenied [] none false = Except.ok ([], []) ∧
    get_directory_size fsDenied [] = Except.ok 0 := ⟨rfl, rfl, rfl⟩

/-- C4 amended: root `NotFound` and `NotADirectory` propagate in all
three operations, as does a root whose *stat* raises `PermissionError`;
but a root directory whose *listing* is permission-denied raises only
from the single-pass scan — the recursive scan and `get_directory_size`
catch it during the walk and return empty results / size 0.  Per-entry
errors never propagate: with an accessible root directory all three
operations return `ok` whatever the entries are. -/
theorem root_error_propagation_amended (fs : Fs) (directory : PyPath)
    (sp rp ih : Bool) (maxd : Option Nat) (sp2 : Bool) (n : Option FsNode)
    (h : lookup fs.root directory = n) :
    rootOutcome fs directory sp rp ih maxd sp2 n := by
  subst h
  cases hl : lookup fs.root directory with
  | none =>
      simp [rootOutcome, scan_directory, scan_directory_recursive,
        get_directory_size, validate_directory, hl]
  | some nd =>
      cases nd with
      | file sz =>
          simp [rootOutcome, scan_directory, scan_directory_recursive,
            get_directory_size, validate_directory, hl]
      | special =>
          simp [rootOutcome, scan_directory, scan_directory_recursive,
            get_directory_size, validate_directory, hl]
      | inaccessible =>
          simp [rootOutcome, scan_directory, scan_directory_recursive,
            get_directory_size, validate_directory, hl]
      | dir denied cs =>
          cases denied with
          | true =>
              simp [rootOutcome, scan_directory, scan_directory_recursive,
                get_directory_size, validate_directory, hl, walk,
                sortP, List.insertionSort]
          | false =>
              simp [rootOutcome, scan_directory, scan_directory_recursive,
                get_directory_size, validate_directory, hl, exceptOk]

/-- Witness for the amended C4 at a concrete denied root. -/
theorem root_error_propagation_amended_witness :
    rootOutcome fsDenied [] false false true none false
      (some (FsNode.dir true [])) :=
  root_error_propagation_amended fsDenied [] false false true none false
    (some (FsNode.dir true [])) rfl

/-- C3 counterexample: on `fsStrOrder` the recursive file list is
`[r/a/b, r/a.c/d]` (Path order compares part-by-part, and `"a" < "a.c"`),
but as flat path strings `"r/a.c/d" < "r/a/b"` because `'.' < '/'`, so
the returned sequence is *not* sorted ascending by path string as the
claim requires. -/
theorem recursive_sort_string_order_cex :
    recScanFiles fsStrOrder ["r"] none false = [["r","a","b"], ["r","a.c","d"]] ∧
    isSortedStr [["r","a","b"], ["r","a.c","d"]] = false := ⟨rfl, rfl⟩

/-- C3 amended: the two sequences returned by the recursive scan are
each sorted ascending in *Path order*, i.e. lexicographically by the
sequence of path components (Python compares `Path` values by their
parts tuple), which coincides with flat path-string order except when a
sibling name extends another sibling name with a character below the
separator `/`. -/
theorem recursive_sorted_path_order (fs : Fs) (directory : PyPath)
    (maxd : Option Nat) (sp : Bool) (F D : List PyPath)
    (h : scan_directory_recursive fs directory maxd sp = Except.ok (F, D)) :
    isSortedP F = true ∧ isSortedP D = true := by
  unfold scan_directory_recursive at h
  cases hl : lookup fs.root directory with
  | none => rw [hl] at h; simp at h
  | some nd =>
      cases nd with
      | file sz => rw [hl] at h; simp at h
      | special => rw [hl] at h; simp at h
      | inaccessible => rw [hl] at h; simp at h
      | dir denied cs =>
          rw [hl] at h
          simp only [Except.ok.injEq, Prod.mk.injEq] at h
          obtain ⟨h1, h2⟩ := h
          rw [← h1, ← h2]
          exact ⟨isSortedP_of_sorted (sortP_sorted _),
                 isSortedP_of_sorted (sortP_sorted _)⟩

/-- Witness for the amended C3 at a concrete input. -/
theorem recursive_sorted_path_order_witness :
    isSortedP [["r","a","b"], ["r","a.c","d"]] = true ∧
    isSortedP [["r","a"], ["r","a.c"]] = true :=
  recursive_sorted_path_order fsStrOrder ["r"] none false
    [["r","a","b"], ["r","a.c","d"]] [["r","a"], ["r","a.c"]] rfl

theorem walk_dir_zero (fs : Fs) (maxd : Option Nat)
    (cs : List (String × FsNode)) (p : PyPath) :
    walk fs maxd (FsNode.dir false cs) p 0 =
      (sortP (collectEntries fs.resolve false true p cs).1 ++
        (walkChildren fs maxd cs p 1).1,
       sortP ((collectEntries fs.resolve false true p cs).2.map Prod.fst) ++
        (walkChildren fs maxd cs p 1).2) := by
  rw [walk]
  rw [depthExceeded_zero]
  simp

/-- C2: the recursive scan always lists the root itself — for every
depth bound (including 0) everything returned by the single-pass simple
scan of the root is contained in the recursive result — and recursion
stops exactly when the current depth exceeds `max_depth`
(`walk` contributes nothing once `max_depth < depth`); concretely, with
`max_depth = 0` on a directory holding one file and one subfolder that
itself holds a file, the result is exactly the root's file and the
root's folder, without the nested file. -/
theorem recursive_depth_policy (fs : Fs) (directory : PyPath)
    (cs : List (String × FsNode)) (maxd : Option Nat) (F D : List PyPath)
    (hroot : lookup fs.root directory = some (FsNode.dir false cs))
    (hscan : scan_directory fs directory false false true = Except.ok (F, D)) :
    (∀ x ∈ F, x ∈ recScanFiles fs directory maxd false) ∧
    (∀ x ∈ D, x ∈ recScanFolders fs directory maxd false) ∧
    (∀ (m d : Nat) (n : FsNode) (p : PyPath), m < d →
        walk fs (some m) n p d = ([], [])) ∧
    scan_directory_recursive fsDepth [] (some 0) false =
      Except.ok ([["f.txt"]], [["sub"]]) := by
  unfold scan_directory at hscan
  rw [hroot] at hscan
  simp only [Bool.false_eq_true, if_false, Except.ok.injEq, Prod.mk.injEq] at hscan
  obtain ⟨hF, hD⟩ := hscan
  have hstop : ∀ (m d : Nat) (n : FsNode) (p : PyPath), m < d →
      walk fs (some m) n p d = ([], []) := by
    intro m d n p hmd
    have hde : depthExceeded (some m) d = true := by
      simp [depthExceeded]
      omega
    rw [walk.eq_def]
    simp [hde]
  refine ⟨?_, ?_, hstop, rfl⟩
  · intro x hx
    have hfe : recScanFiles fs directory maxd false =
        sortP ((walk fs maxd (FsNode.dir false cs) directory 0).1) := by
      unfold recScanFiles scan_directory_recursive
      rw [hroot]
    rw [hfe, walk_dir_zero]
    simp only [mem_sortP, List.mem_append]
    left
    rw [← hF] at hx
    exact mem_sortP.mp hx
  · intro x hx
    have hfe : recScanFolders fs directory maxd false =
        sortP ((walk fs maxd (FsNode.dir false cs) directory 0).2) := by
      unfold recScanFolders scan_directory_recursive
      rw [hroot]
    rw [hfe, walk_dir_zero]
    simp only [mem_sortP, List.mem_append]
    left
    rw [← hD] at hx
    exact mem_sortP.mp hx

/-- Witness for C2 at a concrete two-level tree. -/
theorem recursive_depth_policy_witness :
    ["f.txt"] ∈ recScanFiles fsDepth [] (some 5) false ∧
    ["sub"] ∈ recScanFolders fsDepth [] (some 5) false ∧
    walk fsDepth (some 0) FsNode.special [] 1 = ([], []) ∧
    scan_directory_recursive fsDepth [] (some 0) false =
      Except.ok ([["f.txt"]], [["sub"]]) := by
  have h := recursive_depth_policy fsDepth []
    [("f.txt", FsNode.file (some 1)),
     ("sub", FsNode.dir false [("b.txt", FsNode.file (some 2))])]
    (some 5) [["f.txt"]] [["sub"]] rfl rfl
  exact ⟨h.1 ["f.txt"] (by simp), h.2.1 ["sub"] (by simp),
         h.2.2.1 0 1 FsNode.special [] (by decide), h.2.2.2⟩

theorem collect_files_intro (resolve : PyPath → PyPath) (ih : Bool) (p : PyPath)
    (cs : List (String × FsNode)) (nm : String) (sz : Option Nat)
    (hmem : (nm, FsNode.file sz) ∈ cs)
    (hvis : (!ih && startsWithDot nm) = false) :
    p ++ [nm] ∈ (collectEntries resolve false ih p cs).1 := by
  induction cs with
  | nil => simp at hmem
  | cons hd rest ihc =>
      obtain ⟨n0, c0⟩ := hd
      rcases List.mem_cons.mp hmem with heq | hrest
      · cases heq
        simp [collectEntries, hvis]
      · have hin := ihc hrest
        cases c0 with
        | file sz0 =>
            simp only [collectEntries]
            split
            · exact hin
            · exact List.mem_cons_of_mem _ hin
        | dir b2 cs2 =>
            simp only [collectEntries]
            split
            · exact hin
            · exact hin
        | special =>
            simp only [collectEntries]
            split
            · exact hin
            · exact hin
        | inaccessible =>
            simp only [collectEntries]
            split
            · exact hin
            · exact hin

theorem collect_folders_intro (resolve : PyPath → PyPath) (ih : Bool) (p : PyPath)
    (cs : List (String × FsNode)) (nm : String) (c : FsNode)
    (hmem : (nm, c) ∈ cs) (hbucket : isFolderBucket c = true)
    (hvis : (!ih && startsWithDot nm) = false) :
    p ++ [nm] ∈ ((collectEntries resolve false ih p cs).2.map Prod.fst) := by
  induction cs with
  | nil => simp at hmem
  | cons hd rest ihc =>
      obtain ⟨n0, c0⟩ := hd
      rcases List.mem_cons.mp hmem with heq | hrest
      · cases heq
        have hcond : ¬((!ih && startsWithDot nm) = true) := by simp [hvis]
        cases c with
        | file sz0 => simp [isFolderBucket] at hbucket
        | inaccessible => simp [isFolderBucket] at hbucket
        | dir b2 cs2 =>
            simp only [collectEntries]
            rw [if_neg hcond]
            exact List.mem_cons_self _ _
        | special =>
            simp only [collectEntries]
            rw [if_neg hcond]
            exact List.mem_cons_self _ _
      · have hin := ihc hrest
        cases c0 with
        | file sz0 =>
            simp only [collectEntries]
            split
            · exact hin
            · exact hin
        | dir b2 cs2 =>
            simp only [collectEntries]
            split
            · exact hin
            · simp only [List.map_cons, List.mem_cons]
              exact Or.inr hin
        | special =>
            simp only [collectEntries]
            split
            · exact hin
            · simp only [List.map_cons, List.mem_cons]
              exact Or.inr hin
        | inaccessible =>
            simp only [collectEntries]
            split
            · exact hin
            · exact hin

theorem collect_files_elim (resolve : PyPath → PyPath) (ih : Bool) (p : PyPath)
    (cs : List (String × FsNode)) (x : PyPath)
    (hx : x ∈ (collectEntries resolve false ih p cs).1) :
    ∃ nm sz, (nm, FsNode.file sz) ∈ cs ∧ x = p ++ [nm] := by
  induction cs with
  | nil => simp [collectEntries] at hx
  | cons hd rest ihc =>
      obtain ⟨n0, c0⟩ := hd
      cases c0 with
      | file sz0 =>
          simp only [collectEntries] at hx
          split at hx
          · obtain ⟨nm, sz, hmem, hxeq⟩ := ihc hx
            exact ⟨nm, sz, List.mem_cons_of_mem _ hmem, hxeq⟩
          · rcases List.mem_cons.mp hx with hx1 | hx2
            · exact ⟨n0, sz0, List.mem_cons_self _ _, hx1⟩
            · obtain ⟨nm, sz, hmem, hxeq⟩ := ihc hx2
              exact ⟨nm, sz, List.mem_cons_of_mem _ hmem, hxeq⟩
      | dir b2 cs2 =>
          simp only [collectEntries] at hx
          split at hx <;>
            (obtain ⟨nm, sz, hmem, hxeq⟩ := ihc hx
             exact ⟨nm, sz, List.mem_cons_of_mem _ hmem, hxeq⟩)
      | special =>
          simp only [collectEntries] at hx
          split at hx <;>
            (obtain ⟨nm, sz, hmem, hxeq⟩ := ihc hx
             exact ⟨nm, sz, List.mem_cons_of_mem _ hmem, hxeq⟩)
      | inaccessible =>
          simp only [collectEntries] at hx
          split at hx <;>
            (obtain ⟨nm, sz, hmem, hxeq⟩ := ihc hx
             exact ⟨nm, sz, List.mem_cons_of_mem _ hmem, hxeq⟩)

theorem collect_folders_elim (resolve : PyPath → PyPath) (ih : Bool) (p : PyPath)
    (cs : List (String × FsNode)) (x : PyPath)
    (hx : x ∈ ((collectEntries resolve false ih p cs).2.map Prod.fst)) :
    ∃ nm c, (nm, c) ∈ cs ∧ isFolderBucket c = true ∧ x = p ++ [nm] := by
  induction cs with
  | nil => simp [collectEntries] at hx
  | cons hd rest ihc =>
      obtain ⟨n0, c0⟩ := hd
      cases c0 with
      | file sz0 =>
          simp only [collectEntries] at hx
          split at hx <;>
            (obtain ⟨nm, c, hmem, hb, hxeq⟩ := ihc hx
             exact ⟨nm, c, List.mem_cons_of_mem _ hmem, hb, hxeq⟩)
      | dir b2 cs2 =>
          simp only [collectEntries] at hx
          split at hx
          · obtain ⟨nm, c, hmem, hb, hxeq⟩ := ihc hx
            exact ⟨nm, c, List.mem_cons_of_mem _ hmem, hb, hxeq⟩
          · simp only [List.map_cons, List.mem_cons] at hx
            rcases hx with hx1 | hx2
            · exact ⟨n0, FsNode.dir b2 cs2, List.mem_cons_self _ _, rfl, hx1⟩
            · obtain ⟨nm, c, hmem, hb, hxeq⟩ := ihc hx2
              exact ⟨nm, c, List.mem_cons_of_mem _ hmem, hb, hxeq⟩
      | special =>
          simp only [collectEntries] at hx
          split at hx
          · obtain ⟨nm, c, hmem, hb, hxeq⟩ := ihc hx
            exact ⟨nm, c, List.mem_cons_of_mem _ hmem, hb, hxeq⟩
          · simp only [List.map_cons, List.mem_cons] at hx
            rcases hx with hx1 | hx2
            · exact ⟨n0, FsNode.special, List.mem_cons_self _ _, rfl, hx1⟩
            · obtain ⟨nm, c, hmem, hb, hxeq⟩ := ihc hx2
              exact ⟨nm, c, List.mem_cons_of_mem _ hmem, hb, hxeq⟩
      | inaccessible =>
          simp only [collectEntries] at hx
          split at hx <;>
            (obtain ⟨nm, c, hmem, hb, hxeq⟩ := ihc hx
             exact ⟨nm, c, List.mem_cons_of_mem _ hmem, hb, hxeq⟩)

theorem snd_unique_of_nodup {cs : List (String × FsNode)} {nm : String}
    {c c' : FsNode} (hnd : (cs.map Prod.fst).Nodup)
    (h1 : (nm, c) ∈ cs) (h2 : (nm, c') ∈ cs) : c = c' := by
  induction cs with
  | nil => simp at h1
  | cons hd rest ih =>
      obtain ⟨n0, d0⟩ := hd
      simp only [List.map_cons, List.nodup_cons] at hnd
      rcases List.mem_cons.mp h1 with h1' | h1'
      · rcases List.mem_cons.mp h2 with h2' | h2'
        · cases h1'
          cases h2'.symm
          rfl
        · cases h1'
          exact absurd (List.mem_map_of_mem Prod.fst h2') hnd.1
      · rcases List.mem_cons.mp h2 with h2' | h2'
        · cases h2'
          exact absurd (List.mem_map_of_mem Prod.fst h1') hnd.1
        · exact ih hnd.2 h1' h2'

/-- C7 counterexample: in a directory holding a device node (`special`)
and an entry whose stat raises (`inaccessible`), the single-pass scan
returns the device node in the *folders* sequence — `is_file()` is
`False`, so `items[item.is_file()]` files it under the `False` key —
although the claim says an entry that is neither file nor directory
appears in neither sequence; only the stat-raising entry is skipped. -/
theorem classification_special_cex :
    scanFiles fsSpecial [] false false true = [] ∧
    scanFolders fsSpecial [] false false true = [["dev"]] := ⟨rfl, rfl⟩

/-- C7 amended: classification is by `is_file()` alone.  A regular file
lands in the files sequence only; a directory *or a `special` node*
(device node, stat-able broken symlink) lands in the folders sequence
only; an entry whose stat raises a non-ignored error is skipped with a
warning and appears in neither.  Stated for `resolve_paths = false`
(entry paths are then `directory/name`); names within one directory are
distinct on a real filesystem (`hnd`). -/
theorem classification_amended (fs : Fs) (directory : PyPath)
    (cs : List (String × FsNode)) (sp ih : Bool) (nm : String) (c : FsNode)
    (hroot : lookup fs.root directory = some (FsNode.dir false cs))
    (hnd : (cs.map Prod.fst).Nodup)
    (hmem : (nm, c) ∈ cs)
    (hvis : (!ih && startsWithDot nm) = false) :
    (match c with
     | FsNode.file _ =>
        (directory ++ [nm]) ∈ scanFiles fs directory sp false ih ∧
        (directory ++ [nm]) ∉ scanFolders fs directory sp false ih
     | FsNode.inaccessible =>
        (directory ++ [nm]) ∉ scanFiles fs directory sp false ih ∧
        (directory ++ [nm]) ∉ scanFolders fs directory sp false ih
     | _ =>
        (directory ++ [nm]) ∈ scanFolders fs directory sp false ih ∧
        (directory ++ [nm]) ∉ scanFiles fs directory sp false ih : Prop) := by
  have hsd : scan_directory fs directory sp false ih =
      Except.ok (sortP (collectEntries fs.resolve false ih directory cs).1,
        sortP ((collectEntries fs.resolve false ih directory cs).2.map Prod.fst)) := by
    cases sp <;> (unfold scan_directory; rw [hroot]; rfl)
  have hFe : scanFiles fs directory sp false ih =
      sortP (collectEntries fs.resolve false ih directory cs).1 := by
    unfold scanFiles
    rw [hsd]
  have hDe : scanFolders fs directory sp false ih =
      sortP ((collectEntries fs.resolve false ih directory cs).2.map Prod.fst) := by
    unfold scanFolders
    rw [hsd]
  cases c with
  | file sz =>
      constructor
      · rw [hFe, mem_sortP]
        exact collect_files_intro fs.resolve ih directory cs nm sz hmem hvis
      · intro hmemD
        rw [hDe, mem_sortP] at hmemD
        obtain ⟨nm', c', hmem', hb', hxeq⟩ :=
          collect_folders_elim fs.resolve ih directory cs _ hmemD
        have hnmeq : nm = nm' := by
          have h1 := List.append_cancel_left hxeq
          simpa using h1
        subst hnmeq
        have hcc := snd_unique_of_nodup hnd hmem hmem'
        rw [← hcc] at hb'
        simp [isFolderBucket] at hb'
  | dir b2 cs2 =>
      constructor
      · rw [hDe, mem_sortP]
        exact collect_folders_intro fs.resolve ih directory cs nm _ hmem rfl hvis
      · intro hmemF
        rw [hFe, mem_sortP] at hmemF
        obtain ⟨nm', sz', hmem', hxeq⟩ :=
          collect_files_elim fs.resolve ih directory cs _ hmemF
        have hnmeq : nm = nm' := by
          have h1 := List.append_cancel_left hxeq
          simpa using h1
        subst hnmeq
        have hcc := snd_unique_of_nodup hnd hmem hmem'
        simp at hcc
  | special =>
      constructor
      · rw [hDe, mem_sortP]
        exact collect_folders_intro fs.resolve ih directory cs nm _ hmem rfl hvis
      · intro hmemF
        rw [hFe, mem_sortP] at hmemF
        obtain ⟨nm', sz', hmem', hxeq⟩ :=
          collect_files_elim fs.resolve ih directory cs _ hmemF
        have hnmeq : nm = nm' := by
          have h1 := List.append_cancel_left hxeq
          simpa using h1
        subst hnmeq
        have hcc := snd_unique_of_nodup hnd hmem hmem'
        simp at hcc
  | inaccessible =>
      constructor
      · intro hmemF
        rw [hFe, mem_sortP] at hmemF
        obtain ⟨nm', sz', hmem', hxeq⟩ :=
          collect_files_elim fs.resolve ih directory cs _ hmemF
        have hnmeq : nm = nm' := by
          have h1 := List.append_cancel_left hxeq
          simpa using h1
        subst hnmeq
        have hcc := snd_unique_of_nodup hnd hmem hmem'
        simp at hcc
      · intro hmemD
        rw [hDe, mem_sortP] at hmemD
        obtain ⟨nm', c', hmem', hb', hxeq⟩ :=
          collect_folders_elim fs.resolve ih directory cs _ hmemD
        have hnmeq : nm = nm' := by
          have h1 := List.append_cancel_left hxeq
          simpa using h1
        subst hnmeq
        have hcc := snd_unique_of_nodup hnd hmem hmem'
        rw [← hcc] at hb'
        simp [isFolderBucket] at hb'

/-- Witness for the amended C7: the device node of `fsSpecial` is in
the folders sequence and not in the files sequence. -/
theorem classification_amended_witness :
    ([] ++ ["dev"] : PyPath) ∈ scanFolders fsSpecial [] false false true ∧
    ([] ++ ["dev"] : PyPath) ∉ scanFiles fsSpecial [] false false true :=
  classification_amended fsSpecial []
    [("dev", FsNode.special), ("gone", FsNode.inaccessible)]
    false true "dev" FsNode.special rfl (by decide)
    (List.mem_cons_self _ _) rfl

/-- C8: a wrapper scan applies the registered filters, in registration
order (`foldl` over the filter list), to the files sequence only: when
the underlying primitive scan returns `(F, D)`, the wrapper scan (here
with `use_cache = false`, i.e. the path that actually performs the
primitive scan) returns `(applyFilters F, D)` — the folders sequence is
exactly the primitive scan's, untouched by any filter.  Likewise for the
recursive wrapper scan, which never consults the cache. -/
theorem filters_files_only (s : PathScanner) (fs : Fs) (directory : PyPath)
    (sp rp ih : Option Bool) (maxd : Option Nat) (F D F2 D2 : List PyPath)
    (h1 : scan_directory fs directory (sp.getD s.show_progress)
        (rp.getD s.resolve_paths) (ih.getD s.include_hidden) = Except.ok (F, D))
    (h2 : scan_directory_recursive fs directory maxd (sp.getD s.show_progress) =
        Except.ok (F2, D2)) :
    wrapResult (s.scanDirectory fs directory sp rp ih false) =
      some (applyFilters fs s.filters F, D) ∧
    wrapResult (s.scanRecursive fs directory maxd sp) =
      some (applyFilters fs s.filters F2, D2) := by
  constructor
  · unfold PathScanner.scanDirectory
    simp only [Bool.and_false, Bool.false_eq_true, if_false]
    rw [h1]
    rfl
  · simp only [PathScanner.scanRecursive]
    rw [h2]
    rfl

/-- Witness for C8: a wrapper holding one extension filter. -/
theorem filters_files_only_witness :
    wrapResult (((PathScanner.make false false true true).add_extension_filter
        [".txt"]).scanDirectory fsDepth [] none none none false) =
      some (applyFilters fsDepth
        ((PathScanner.make false false true true).add_extension_filter [".txt"]).filters
        [["f.txt"]], [["sub"]]) ∧
    wrapResult (((PathScanner.make false false true true).add_extension_filter
        [".txt"]).scanRecursive fsDepth [] none none) =
      some (applyFilters fsDepth
        ((PathScanner.make false false true true).add_extension_filter [".txt"]).filters
        [["f.txt"], ["sub", "b.txt"]], [["sub"]]) :=
  filters_files_only ((PathScanner.make false false true true).add_extension_filter
    [".txt"]) fsDepth [] none none none none
    [["f.txt"]] [["sub"]] [["f.txt"], ["sub", "b.txt"]] [["sub"]] rfl rfl

theorem scanDirectory_hit (s : PathScanner) (fs : Fs) (directory : PyPath)
    (sp rp ih : Option Bool) (c : List (CacheKey × ScanResult)) (v : ScanResult)
    (hec : s.enable_cache = true) (hc : s.cache = some c)
    (hfind : assocFind
      (fs.resolve directory, rp.getD s.resolve_paths, ih.getD s.include_hidden) c
      = some v) :
    s.scanDirectory fs directory sp rp ih true =
      Except.ok (v, { s with stats :=
        { s.stats with cache_hits := s.stats.cache_hits + 1 } }) := by
  simp only [PathScanner.scanDirectory, hec, hc, Bool.and_self, if_true, hfind]

theorem scanDirectory_fresh (s : PathScanner) (fs : Fs) (directory : PyPath)
    (sp rp ih : Option Bool) (use_cache : Bool)
    (c : List (CacheKey × ScanResult)) (F D : List PyPath)
    (hec : s.enable_cache = true) (hc : s.cache = some c)
    (hmiss : use_cache = false ∨ assocFind
      (fs.resolve directory, rp.getD s.resolve_paths, ih.getD s.include_hidden) c
      = none)
    (hscan : scan_directory fs directory (sp.getD s.show_progress)
        (rp.getD s.resolve_paths) (ih.getD s.include_hidden) = Except.ok (F, D)) :
    s.scanDirectory fs directory sp rp ih use_cache =
      Except.ok ((applyFilters fs s.filters F, D),
        { s with
          stats := { s.stats with
            scans := s.stats.scans + 1,
            files_found := s.stats.files_found + (applyFilters fs s.filters F).length,
            folders_found := s.stats.folders_found + D.length },
          scan_history := s.scan_history ++ [directory],
          cache := some (assocInsert
            (fs.resolve directory, rp.getD s.resolve_paths, ih.getD s.include_hidden)
            (applyFilters fs s.filters F, D) c) }) := by
  rcases hmiss with hm | hm
  · subst hm
    simp only [PathScanner.scanDirectory, Bool.and_false, Bool.false_eq_true, if_false]
    rw [hscan]
    simp only [hec, hc, if_true]
  · simp only [PathScanner.scanDirectory, hec, hc, Bool.and_self, if_true, hm]
    rw [hscan]
    simp only [ite_self]

/-- C10: with caching enabled, every wrapper `scan_directory` call that
actually performs the primitive scan — a cache miss, or any call with
`use_cache = false`, which skips the lookup but not the storage — stores
the *filtered* result into the cache under the key
`(resolved directory, effective resolve_paths, effective include_hidden)`,
overwriting any existing entry for that key (`assocFind` after
`assocInsert` returns the new value). -/
theorem cache_store_always (s : PathScanner) (fs : Fs) (directory : PyPath)
    (sp rp ih : Option Bool) (use_cache : Bool)
    (c : List (CacheKey × ScanResult)) (F D : List PyPath)
    (hec : s.enable_cache = true) (hc : s.cache = some c)
    (hmiss : use_cache = false ∨ assocFind
      (fs.resolve directory, rp.getD s.resolve_paths, ih.getD s.include_hidden) c
      = none)
    (hscan : scan_directory fs directory (sp.getD s.show_progress)
        (rp.getD s.resolve_paths) (ih.getD s.include_hidden) = Except.ok (F, D)) :
    s.scanDirectory fs directory sp rp ih use_cache =
      Except.ok ((applyFilters fs s.filters F, D),
        { s with
          stats := { s.stats with
            scans := s.stats.scans + 1,
            files_found := s.stats.files_found + (applyFilters fs s.filters F).length,
            folders_found := s.stats.folders_found + D.length },
          scan_history := s.scan_history ++ [directory],
          cache := some (assocInsert
            (fs.resolve directory, rp.getD s.resolve_paths, ih.getD s.include_hidden)
            (applyFilters fs s.filters F, D) c) }) ∧
    assocFind (fs.resolve directory, rp.getD s.resolve_paths, ih.getD s.include_hidden)
      (assocInsert
        (fs.resolve directory, rp.getD s.resolve_paths, ih.getD s.include_hidden)
        (applyFilters fs s.filters F, D) c) =
      some (applyFilters fs s.filters F, D) :=
  ⟨scanDirectory_fresh s fs directory sp rp ih use_cache c F D hec hc hmiss hscan,
   assocFind_insert _ _ c⟩

/-- Witness for C10: a wrapper whose cache already holds a stale entry
for the key; a `use_cache = false` call rescans and overwrites it. -/
theorem cache_store_always_witness :
    ({ PathScanner.make false false true true with
        cache := some [(([], false, true), ([["old"]], []))] } : PathScanner).scanDirectory
      fsSingle [] none none none false =
      Except.ok (([["x"]], []),
        { PathScanner.make false false true true with
          cache := some [(([], false, true), ([["x"]], []))],
          stats := ⟨1, 1, 0, 0⟩,
          scan_history := [[]] }) ∧
    assocFind ([], false, true) [(([], false, true), ([["x"]], []))] =
      some ([["x"]], []) := by
  have h := cache_store_always
    { PathScanner.make false false true true with
        cache := some [(([], false, true), ([["old"]], []))] }
    fsSingle [] none none none false
    [(([], false, true), ([["old"]], []))] [["x"]] [] rfl rfl (Or.inl rfl) rfl
  exact h

theorem scanDirectory_err (s : PathScanner) (fs : Fs) (directory : PyPath)
    (sp rp ih : Option Bool) (c : List (CacheKey × ScanResult)) (e : ScanErr)
    (hec : s.enable_cache = true) (hc : s.cache = some c)
    (hfind : assocFind
      (fs.resolve directory, rp.getD s.resolve_paths, ih.getD s.include_hidden) c
      = none)
    (hscan : scan_directory fs directory (sp.getD s.show_progress)
        (rp.getD s.resolve_paths) (ih.getD s.include_hidden) = Except.error e) :
    s.scanDirectory fs directory sp rp ih true = Except.error e := by
  simp only [PathScanner.scanDirectory, hec, hc, Bool.and_self, if_true, hfind]
  rw [hscan]

/-- C1: on a wrapper with caching enabled, after a successful
`scan_directory` call with `use_cache = true`, a second call with the
identical arguments returns the structurally identical `(files, folders)`
pair, and the new state differs from the old only in the cache-hit
counter (+1): the scan counter, the cumulative file/folder counters, the
history and the cache are untouched.  The second call performs no
filesystem access: it is stated against an arbitrary second filesystem
`fs2` that only has to resolve the directory argument to the same key
(the cache-key computation is the only thing the hit path consults), so
its result cannot depend on any directory contents. -/
theorem cache_hit_idempotence (s : PathScanner) (fs fs2 : Fs) (directory : PyPath)
    (sp rp ih : Option Bool) (c : List (CacheKey × ScanResult))
    (r1 : ScanResult) (s1 : PathScanner)
    (hec : s.enable_cache = true)
    (hc : s.cache = some c)
    (hres : fs2.resolve directory = fs.resolve directory)
    (h1 : s.scanDirectory fs directory sp rp ih true = Except.ok (r1, s1)) :
    s1.scanDirectory fs2 directory sp rp ih true =
      Except.ok (r1, { s1 with stats := { s1.stats with
        cache_hits := s1.stats.cache_hits + 1 } }) := by
  cases hfind : assocFind
      (fs.resolve directory, rp.getD s.resolve_paths, ih.getD s.include_hidden) c with
  | some v =>
      rw [scanDirectory_hit s fs directory sp rp ih c v hec hc hfind] at h1
      simp only [Except.ok.injEq, Prod.mk.injEq] at h1
      obtain ⟨hv, hs1⟩ := h1
      subst hv
      subst hs1
      refine scanDirectory_hit _ fs2 directory sp rp ih c v hec hc ?_
      rw [hres]
      exact hfind
  | none =>
      cases hscan : scan_directory fs directory (sp.getD s.show_progress)
          (rp.getD s.resolve_paths) (ih.getD s.include_hidden) with
      | error e =>
          rw [scanDirectory_err s fs directory sp rp ih c e hec hc hfind hscan] at h1
          exact absurd h1 (by simp)
      | ok FD =>
          obtain ⟨F, D⟩ := FD
          rw [scanDirectory_fresh s fs directory sp rp ih true c F D hec hc
            (Or.inr hfind) hscan] at h1
          simp only [Except.ok.injEq, Prod.mk.injEq] at h1
          obtain ⟨hr1, hs1⟩ := h1
          subst hr1
          subst hs1
          refine scanDirectory_hit _ fs2 directory sp rp ih
            (assocInsert
              (fs.resolve directory, rp.getD s.resolve_paths, ih.getD s.include_hidden)
              (applyFilters fs s.filters F, D) c) _ hec rfl ?_
          rw [hres]
          exact assocFind_insert _ _ c

/-- Witness for C1: after a first scan of `fsSingle` populated the
cache, a second identical call — run against `fsEmptyDir`, a filesystem
with different contents but the same key resolution — returns the same
pair and bumps only the hit counter. -/
theorem cache_hit_idempotence_witness :
    ({ show_progress := false, resolve_paths := false, include_hidden := true,
       enable_cache := true,
       cache := some [(([], false, true), ([["x"]], []))],
       stats := ⟨1, 1, 0, 0⟩, scan_history := [[]], filters := [] } :
      PathScanner).scanDirectory fsEmptyDir [] none none none true =
      Except.ok ((([["x"]], []) : ScanResult),
        { show_progress := false, resolve_paths := false, include_hidden := true,
          enable_cache := true,
          cache := some [(([], false, true), ([["x"]], []))],
          stats := ⟨1, 1, 0, 1⟩, scan_history := [[]], filters := [] }) := by
  have h := cache_hit_idempotence (PathScanner.make false false true true)
    fsSingle fsEmptyDir [] none none none []
    (([["x"]], []) : ScanResult)
    { show_progress := false, resolve_paths := false, include_hidden := true,
      enable_cache := true,
      cache := some [(([], false, true), ([["x"]], []))],
      stats := ⟨1, 1, 0, 0⟩, scan_history := [[]], filters := [] }
    rfl rfl rfl rfl
  exact h
